import Mathlib

/-!
# ChartMonitor — Strategy Backtest & Selection Engine: a verified shallow embedding

This file embeds the core of `src/backtesters/fullbacktest.js` (shared verbatim with
`src/backtesters/singlebacktest.js`): the bar-by-bar trade simulator
(`runBacktestFromParquet`), the dynamic risk levels (`dynamicRisk`), the per-timeframe
best-strategy selection fold (`processStockConcurrent`), the result store
(`saveResult` / `alreadyRetestedSymbols`) and the scheduler's skip filter
(`runConcurrentBacktests`).

Modelling conventions:
* JavaScript numbers are modelled as exact rationals (`ℚ`); decimal literals such as
  `0.15`, `0.0001`, `0.7` become the exact rationals `15/100`, `1/10000`, `7/10`.
* `x.toFixed(2)` followed by `parseFloat` is modelled by `round2` (round to the nearest
  multiple of `1/100`, halves up — `toFixed` rounds half away from zero and all the
  rounded quantities here are nonnegative).
* The indicator helper module (`helpers.js`, providing `ATR`) is consumed through the
  parameter `atrFn`; the theorems quantify over it except where a concrete run is
  evaluated, where the spec-modelled `ATR` below is used.
* The parquet reader's `try/catch` (which maps any load failure to `[]`) is modelled by
  feeding `fetchHistoricalDataFromParquet` an `Except` value.
-/

namespace ChartMonitor

/-- One OHLCV bar, as produced by `fetchHistoricalDataFromParquet`
(fields `time, open, high, low, close, volume`; `open` is a Lean keyword, hence `openP`). -/
structure Candle where
  time : ℚ
  openP : ℚ
  high : ℚ
  low : ℚ
  close : ℚ
  volume : ℚ
deriving Repr, DecidableEq, Inhabited

/-- Trade direction carried in a strategy signal (`'long'` / `'short'`). -/
inductive Dir where
  | long : Dir
  | short : Dir
deriving Repr, DecidableEq

/-- A non-null strategy result: an object whose `signal` field holds the direction. -/
structure Signal where
  signal : Dir
deriving Repr, DecidableEq

/-- A strategy function, as invoked by the simulator:
`strategyFunc(subPrices, subCandles, subVolumes, higher, i, lastTradeIndex, COOLDOWN)`;
a null result is `none`. -/
def StrategyFn : Type :=
  List ℚ → List Candle → List ℚ → List Candle → ℕ → ℤ → ℕ → Option Signal

/-- The cooldown constant of `runBacktestFromParquet` (`const COOLDOWN = 8`). -/
def COOLDOWN : ℕ := 8

/-- Stop/target pair returned by `dynamicRisk`. -/
structure RiskLevels where
  stop : ℚ
  target : ℚ
deriving Repr, DecidableEq

/-- `dynamicRisk(entry, setup, atr)` from fullbacktest.js lines 69–75. -/
def dynamicRisk (entry : ℚ) (setup : Dir) (atr : ℚ) : RiskLevels :=
  let stopLoss := atr * (7/10)
  let takeProfit := atr * (11/10)
  match setup with
  | .long => { stop := entry - stopLoss, target := entry + takeProfit }
  | .short => { stop := entry + stopLoss, target := entry - takeProfit }

/-- `xs.slice(-n)`: the last `n` elements (all of `xs` when `xs.length ≤ n`). -/
def sliceLast (n : ℕ) {α : Type} (xs : List α) : List α :=
  xs.drop (xs.length - n)

/-- The per-trade forward-scan accumulator of the inner loop (lines 115–117):
`tradeProfitLoss`, `duration`, `tradeLow`, `tradeHigh`, `exitPrice`. -/
structure ScanState where
  tradeProfitLoss : ℚ
  duration : ℕ
  tradeLow : ℚ
  tradeHigh : ℚ
  exitPrice : ℚ
deriving Repr, DecidableEq

/-- The inner exit scan of `runBacktestFromParquet` (lines 119–133):
`for (let j = i + 1; j < Math.min(i + 12, lower.length); j++) …` with the direction-split
update and the three-way break condition checked after updating the running state.
The loop is driven by the remaining iteration count `count = jmax − j` (the caller passes
`min(i + 12, lower.length) − (i + 1)`), so that the recursion is structural. -/
def exitScan (lower : List Candle) (dir : Dir) (entry stop target positionSize atrNow : ℚ) :
    ℕ → ℕ → ScanState → ScanState
  | _, 0, st => st
  | j, count + 1, st =>
    let price := (lower.getD j default).close
    match dir with
    | .long =>
      let st' : ScanState :=
        { tradeProfitLoss := positionSize * (price - entry)
          duration := st.duration + 1
          tradeLow := min st.tradeLow price
          tradeHigh := st.tradeHigh
          exitPrice := price }
      if price ≤ stop ∨ st'.tradeProfitLoss ≥ positionSize * atrNow * (35/100) ∨ price ≥ target
      then st'
      else exitScan lower dir entry stop target positionSize atrNow (j+1) count st'
    | .short =>
      let st' : ScanState :=
        { tradeProfitLoss := positionSize * (entry - price)
          duration := st.duration + 1
          tradeLow := st.tradeLow
          tradeHigh := max st.tradeHigh price
          exitPrice := price }
      if price ≥ stop ∨ st'.tradeProfitLoss ≥ positionSize * atrNow * (35/100) ∨ price ≤ target
      then st'
      else exitScan lower dir entry stop target positionSize atrNow (j+1) count st'

/-- `positionSize` as computed at entry (lines 109–111):
`riskAmount = Math.max(balance * 0.15, 30)`,
`stopDistance = Math.max(Math.abs(entry - stop), 0.0001)`,
`Math.min(riskAmount / stopDistance, balance / entry)`. -/
def positionSize (balance entry stop : ℚ) : ℚ :=
  let riskAmount := max (balance * (15/100)) 30
  let stopDistance := max |entry - stop| (1/10000)
  min (riskAmount / stopDistance) (balance / entry)

/-- The mutable state of the outer bar loop of `runBacktestFromParquet`
(lines 84–88): rolling arrays, counters, `lastTradeIndex`, balance and the ruin flag. -/
structure SimState where
  prices : List ℚ
  volumes : List ℚ
  candles : List Candle
  trades : ℕ
  wins : ℕ
  losses : ℕ
  totalDuration : ℕ
  totalRR : ℚ
  lastTradeIndex : ℤ
  balance : ℚ
  investmentGone : Bool
deriving Repr, DecidableEq

/-- Initial loop state (lines 84–88): empty windows, zero counters,
`lastTradeIndex = -999`, `balance = 100`, `investmentGone = false`. -/
def initState : SimState :=
  { prices := [], volumes := [], candles := [], trades := 0, wins := 0, losses := 0
    totalDuration := 0, totalRR := 0, lastTradeIndex := -999, balance := 100
    investmentGone := false }

/-- One iteration of the bar loop of `runBacktestFromParquet` (lines 90–152):
push the bar into the rolling arrays, take the `slice(-30)` windows, invoke the strategy,
and — whenever the signal is non-null and the investment is not gone — open, size and
scan a trade and settle the accounting. -/
def stepBar (atrFn : List Candle → ℚ) (strategyFunc : StrategyFn)
    (lower higher : List Candle) (i : ℕ) (st : SimState) : SimState :=
  let c := lower.getD i default
  let prices := st.prices ++ [c.close]
  let volumes := st.volumes ++ [c.volume]
  let candles := st.candles ++ [c]
  let subPrices := sliceLast 30 prices
  let subCandles := sliceLast 30 candles
  let subVolumes := sliceLast 30 volumes
  let tradeSignal := strategyFunc subPrices subCandles subVolumes higher i st.lastTradeIndex COOLDOWN
  match tradeSignal with
  | none => { st with prices := prices, volumes := volumes, candles := candles }
  | some sig =>
    if st.investmentGone then
      { st with prices := prices, volumes := volumes, candles := candles }
    else
      let entry := c.close
      let atrNow := atrFn subCandles
      let rl := dynamicRisk entry sig.signal atrNow
      let size := positionSize st.balance entry rl.stop
      let balanceLocked := st.balance - size * entry
      let scan := exitScan lower sig.signal entry rl.stop rl.target size atrNow
        (i + 1) (min (i + 12) lower.length - (i + 1))
        { tradeProfitLoss := 0, duration := 0, tradeLow := entry, tradeHigh := entry
          exitPrice := entry }
      let balanceBack := balanceLocked + size * entry + scan.tradeProfitLoss
      let riskPct :=
        match sig.signal with
        | .long => |entry - scan.tradeLow| / entry
        | .short => |scan.tradeHigh - entry| / entry
      let rewardPct :=
        match sig.signal with
        | .long => |scan.exitPrice - entry| / entry
        | .short => |entry - scan.exitPrice| / entry
      let rr := rewardPct / max riskPct (1/10000)
      { prices := prices, volumes := volumes, candles := candles
        trades := st.trades + 1
        wins := if scan.tradeProfitLoss ≥ 0 then st.wins + 1 else st.wins
        losses := if scan.tradeProfitLoss ≥ 0 then st.losses else st.losses + 1
        totalDuration := st.totalDuration + scan.duration
        totalRR := st.totalRR + rr
        lastTradeIndex := (i : ℤ)
        balance := if balanceBack ≤ 0 then 0 else balanceBack
        investmentGone := if balanceBack ≤ 0 then true else st.investmentGone }

/-- The outer bar loop `for (let i = i0; i < lower.length; i++)` (line 90, with
`i0 = 25` at the call site): a fold of `stepBar` over the index list
`[i0, …, lower.length − 1]`. -/
def runLoop (atrFn : List Candle → ℚ) (strategyFunc : StrategyFn)
    (lower higher : List Candle) (i0 : ℕ) (st : SimState) : SimState :=
  (List.range' i0 (lower.length - i0)).foldl
    (fun st i => stepBar atrFn strategyFunc lower higher i st) st

/-- The aggregated result object of `runBacktestFromParquet` (lines 158–165). -/
structure BacktestResult where
  trades : ℕ
  wins : ℕ
  losses : ℕ
  winRate : ℚ
  avgDuration : ℚ
  avgRR : ℚ
deriving Repr, DecidableEq

/-- `parseFloat(x.toFixed(2))` on a nonnegative value: round to 2 decimal places. -/
def round2 (x : ℚ) : ℚ := (round (x * 100) : ℤ) / 100

/-- The aggregation epilogue of `runBacktestFromParquet` (lines 154–165):
`avgDuration`, `winRate`, `avgRR` with the zero-trades fallbacks and the
`toFixed(2)` rounding of the returned fields. -/
def aggregate (st : SimState) : BacktestResult :=
  { trades := st.trades
    wins := st.wins
    losses := st.losses
    winRate := round2 (if st.trades = 0 then 0 else ((st.wins : ℚ) / st.trades) * 100)
    avgDuration := if st.trades = 0 then 0 else round2 ((st.totalDuration : ℚ) / st.trades)
    avgRR := if st.trades = 0 then 0 else round2 (st.totalRR / st.trades) }

/-- The pure core of `runBacktestFromParquet` (lines 84–165): run the bar loop from
index 25 on the loaded series and aggregate. -/
def simulate (atrFn : List Candle → ℚ) (strategyFunc : StrategyFn)
    (lower higher : List Candle) : BacktestResult :=
  aggregate (runLoop atrFn strategyFunc lower higher 25 initState)

/-- `fetchHistoricalDataFromParquet` (lines 33–66): the raw read either yields the rows
or throws; the surrounding `catch` maps any failure to `[]`. -/
def fetchHistoricalDataFromParquet (raw : Except String (List Candle)) : List Candle :=
  match raw with
  | .ok rows => rows
  | .error _ => []

/-- `runBacktestFromParquet` (lines 78–170) at the granularity the claims need:
load both series through the catch-to-`[]` fetch and run the simulation. -/
def runBacktestFromParquet (atrFn : List Candle → ℚ)
    (rawLower rawHigher : Except String (List Candle)) (strategyFunc : StrategyFn) :
    BacktestResult :=
  simulate atrFn strategyFunc
    (fetchHistoricalDataFromParquet rawLower) (fetchHistoricalDataFromParquet rawHigher)

/-- True range of a candle given the previous candle's close:
`max(high − low, |high − prevClose|, |low − prevClose|)`. -/
def trueRange (prevClose : ℚ) (c : Candle) : ℚ :=
  max (c.high - c.low) (max |c.high - prevClose| |c.low - prevClose|)

/-- True-range list of a candle window: the first candle contributes `high − low`
(no previous close), each later one its `trueRange` against its predecessor's close. -/
def trList : List Candle → List ℚ
  | [] => []
  | c :: rest => (c.high - c.low) :: trListAux c.close rest
where
  trListAux (prevClose : ℚ) : List Candle → List ℚ
    | [] => []
    | c :: rest => trueRange prevClose c :: trListAux c.close rest

/-- Modelled from the spec: the `ATR` helper lives in `src/backtesters/helpers.js`,
which is not under `src/`; the glossary defines ATR as "Average True Range, a volatility
measure used for stop/target sizing", modelled here as the arithmetic mean of the true
ranges over the candle window (0 on an empty window). Used only to evaluate concrete
runs; the general theorems quantify over the `atrFn` parameter. -/
def ATR (candles : List Candle) : ℚ :=
  let trs := trList candles
  if trs.length = 0 then 0 else trs.sum / trs.length

-- ---------------- Performance Aggregator (processStockConcurrent, lines 216–229) ----

/-- The per-timeframe accumulator of `processStockConcurrent`: the seed
`{ strategy: '', winRate: 0 }` and, after a replacement, `{ ...result, strategy }`. -/
structure TFBest where
  strategy : String
  trades : ℕ
  wins : ℕ
  losses : ℕ
  winRate : ℚ
  avgDuration : ℚ
  avgRR : ℚ
deriving Repr, DecidableEq

/-- `{ ...result, strategy: strategyName }` (line 225). -/
def mkTFBest (strategyName : String) (result : BacktestResult) : TFBest :=
  { strategy := strategyName, trades := result.trades, wins := result.wins
    losses := result.losses, winRate := result.winRate
    avgDuration := result.avgDuration, avgRR := result.avgRR }

/-- The seed `{ strategy: '', winRate: 0 }` of `bestForTF` (line 221); the missing
fields read as 0. -/
def seedTFBest : TFBest :=
  { strategy := "", trades := 0, wins := 0, losses := 0, winRate := 0
    avgDuration := 0, avgRR := 0 }

/-- The inner strategy fold of `processStockConcurrent` for one timeframe
(lines 221–227): `Object.entries(strategies)` is modelled as an association list in the
registry's deterministic iteration order; a strategy replaces the current best exactly
when its `winRate` is strictly greater. The two series stand for the timeframe's data. -/
def bestForTF (atrFn : List Candle → ℚ) (strategies : List (String × StrategyFn))
    (lower higher : List Candle) : TFBest :=
  strategies.foldl
    (fun best p =>
      let result := simulate atrFn p.2 lower higher
      if result.winRate > best.winRate then mkTFBest p.1 result else best)
    seedTFBest

-- ---------------- Result Store (saveResult, lines 173–196) ----------------

/-- One persisted `SymbolResult` entry of `results.json`. `timeframes` is kept opaque
(its content is irrelevant to the store's logic). -/
structure StoredResult where
  symbol : String
  name : String
  overallWinRate : ℚ
  timeframes : List (String × TFBest)
  replaced : String
  retested : String
deriving Repr, DecidableEq

/-- The per-symbol output object assembled by `processStockConcurrent` (lines 234–239). -/
structure SymbolOutput where
  name : String
  overallWinRate : ℚ
  timeframes : List (String × TFBest)
deriving Repr, DecidableEq

/-- `saveResult(symbol, result)` (lines 173–196): build `newEntry` with
`replaced: "new"`, `retested: "yes"`; replace the first entry with the same symbol
(reporting `"yes"`) or append (reporting `"new"`). The in-place touch-up of the old
entry's `retested` flag on line 187 is dead — `allResults[idx]` is overwritten by
`newEntry` on the next line — so it does not appear in the state transition. -/
def saveResult (allResults : List StoredResult) (symbol : String) (result : SymbolOutput) :
    List StoredResult × String :=
  let newEntry : StoredResult :=
    { symbol := symbol, name := result.name, overallWinRate := result.overallWinRate
      timeframes := result.timeframes, replaced := "new", retested := "yes" }
  match allResults.findIdx? (fun r => r.symbol = symbol) with
  | some idx => (allResults.set idx newEntry, "yes")
  | none => (allResults ++ [newEntry], "new")

/-- `alreadyRetestedSymbols` (lines 20–22): the symbols of the persisted entries whose
`retested` flag is `"yes"` (the JS `Set` is modelled as the underlying list; only
membership is ever consulted). -/
def alreadyRetestedSymbols (allResults : List StoredResult) : List String :=
  (allResults.filter (fun r => r.retested = "yes")).map (fun r => r.symbol)

/-- A stock entry of the tradable universe (`{ symbol, name }`). -/
structure Stock where
  symbol : String
  name : String
deriving Repr, DecidableEq

/-- The skip filter at the top of `runConcurrentBacktests` (line 249):
`tradableStocks.filter(s => !alreadyRetestedSymbols.has(s.symbol))`. -/
def filterTradable (tradableStocks : List Stock) (skip : List String) : List Stock :=
  tradableStocks.filter (fun s => ¬ skip.contains s.symbol)

-- ---------------- Spec-side definitions for refinement claims ----------------

/-- The position-size formula exactly as the spec words it (§4.1 step 4 / claim C4):
`min(max(balance × 0.15, 30) / max(|entry − stop|, 0.0001), balance / entry)`. -/
def positionSizeSpecFormula (balance entry stop : ℚ) : ℚ :=
  min (max (balance * (15/100)) 30 / max |entry - stop| (1/10000)) (balance / entry)

/-- The source's sizing with the hard-wired risk fraction `0.15` generalised to a
parameter `r`, as the spec's monotonicity property (§8 / claim C9) treats it;
`positionSizeR (15/100) = positionSize`. -/
def positionSizeR (r balance entry stop : ℚ) : ℚ :=
  let riskAmount := max (balance * r) 30
  let stopDistance := max |entry - stop| (1/10000)
  min (riskAmount / stopDistance) (balance / entry)

-- ---------------- Concrete fixtures used by counterexamples and witnesses ----------

/-- A strategy that returns a long signal on every invocation (it ignores the
`lastTradeIndex` / `cooldown` arguments entirely, as a strategy is free to do). -/
def alwaysLong : StrategyFn := fun _ _ _ _ _ _ _ => some ⟨Dir.long⟩

/-- A strategy that signals long exactly once, on the first eligible bar (index 25),
and stays silent afterwards — the strategy of the spec's rising-series scenario. -/
def longOnFirstEligibleBar : StrategyFn :=
  fun _ _ _ _ i _ _ => if i = 25 then some ⟨Dir.long⟩ else none

/-- A strategy that never signals. -/
def neverSignal : StrategyFn := fun _ _ _ _ _ _ _ => none

/-- A 27-candle series with strictly rising positive closes `1, 2, …, 27`
(bar `k` has `close = k+1`, `high = k+2`, `low = k`). -/
def c1series : List Candle :=
  (List.range 27).map (fun k =>
    { time := (k : ℚ), openP := (k : ℚ) + 1, high := (k : ℚ) + 2, low := (k : ℚ)
      close := (k : ℚ) + 1, volume := 1 })

/-- A 28-candle series with strictly rising positive closes `100 + k/10` and wide
bars (`high = close + 5`, `low = close − 5`), so the window volatility is large
(the modelled ATR of the 1-bar window at bar 25 is 10) while the closes creep up
far too slowly to reach `target = entry + 1.1 × ATR` within the scan horizon. -/
def c2series : List Candle :=
  (List.range 28).map (fun k =>
    { time := (k : ℚ), openP := 100 + (k : ℚ)/10, high := 105 + (k : ℚ)/10
      low := 95 + (k : ℚ)/10, close := 100 + (k : ℚ)/10, volume := 1 })

/-- Entry price of the trade `c2series` opens at bar 25. -/
def c2entry : ℚ := (c2series.getD 25 default).close

/-- The stop/target levels computed for that trade (windowed ATR of the single
pushed candle). -/
def c2rl : RiskLevels :=
  dynamicRisk c2entry Dir.long (ATR (sliceLast 30 ((c2series.drop 25).take 1)))

/-- The position size of that trade (balance is still the initial 100). -/
def c2size : ℚ := positionSize 100 c2entry c2rl.stop

/-- The forward exit scan the simulator runs for that trade: from bar 26,
`min(25 + 12, 28) − 26 = 2` iterations. -/
def c2scan : ScanState :=
  exitScan c2series Dir.long c2entry c2rl.stop c2rl.target c2size
    (ATR (sliceLast 30 ((c2series.drop 25).take 1))) 26 (min (25 + 12) c2series.length - 26)
    { tradeProfitLoss := 0, duration := 0, tradeLow := c2entry, tradeHigh := c2entry
      exitPrice := c2entry }

/-- A concrete per-symbol output, as `processStockConcurrent` would assemble it. -/
def appleOutput : SymbolOutput := { name := "Apple", overallWinRate := 0, timeframes := [] }

/-- A concrete stock of the tradable universe. -/
def appleStock : Stock := { symbol := "AAPL", name := "Apple" }

/-- The state of the bar loop just before bar `i` is processed: the fold of
`stepBar` over the already-processed bar indices `25, …, i − 1`. -/
def stateBefore (atrFn : List Candle → ℚ) (strategyFunc : StrategyFn)
    (lower higher : List Candle) (i : ℕ) : SimState :=
  (List.range' 25 (i - 25)).foldl
    (fun st k => stepBar atrFn strategyFunc lower higher k st) initState

-- ---------------- General lemmas about the embedding ----------------

section Lemmas

variable (atrFn : List Candle → ℚ) (strategyFunc : StrategyFn) (lower higher : List Candle)

/-- `slice(-n)` keeps `min(length, n)` elements. -/
lemma sliceLast_length (n : ℕ) {α : Type} (xs : List α) :
    (sliceLast n xs).length = min xs.length n := by
  simp [sliceLast]
  omega

/-- When the strategy returns no signal, the step only pushes the bar into the
rolling arrays. -/
lemma stepBar_none (i : ℕ) (st : SimState)
    (hsig : strategyFunc (sliceLast 30 (st.prices ++ [(lower.getD i default).close]))
      (sliceLast 30 (st.candles ++ [lower.getD i default]))
      (sliceLast 30 (st.volumes ++ [(lower.getD i default).volume]))
      higher i st.lastTradeIndex COOLDOWN = none) :
    stepBar atrFn strategyFunc lower higher i st =
      { st with prices := st.prices ++ [(lower.getD i default).close]
                volumes := st.volumes ++ [(lower.getD i default).volume]
                candles := st.candles ++ [lower.getD i default] } := by
  simp only [stepBar, hsig]

/-- When the investment is gone, the step only pushes the bar into the rolling
arrays, whatever the signal. -/
lemma stepBar_gone (i : ℕ) (st : SimState) (hgone : st.investmentGone = true) :
    stepBar atrFn strategyFunc lower higher i st =
      { st with prices := st.prices ++ [(lower.getD i default).close]
                volumes := st.volumes ++ [(lower.getD i default).volume]
                candles := st.candles ++ [lower.getD i default] } := by
  simp only [stepBar]
  cases hsig : strategyFunc (sliceLast 30 (st.prices ++ [(lower.getD i default).close]))
      (sliceLast 30 (st.candles ++ [lower.getD i default]))
      (sliceLast 30 (st.volumes ++ [(lower.getD i default).volume]))
      higher i st.lastTradeIndex COOLDOWN with
  | none => rfl
  | some sig => simp [hgone]

/-- When the strategy fires and the investment is not gone, the step opens, sizes,
scans and settles one trade; this spells the resulting state out once and for all. -/
lemma stepBar_trade (i : ℕ) (st : SimState) (sig : Signal)
    (hsig : strategyFunc (sliceLast 30 (st.prices ++ [(lower.getD i default).close]))
      (sliceLast 30 (st.candles ++ [lower.getD i default]))
      (sliceLast 30 (st.volumes ++ [(lower.getD i default).volume]))
      higher i st.lastTradeIndex COOLDOWN = some sig)
    (hgone : st.investmentGone = false) :
    stepBar atrFn strategyFunc lower higher i st =
      (let c := lower.getD i default
       let entry := c.close
       let atrNow := atrFn (sliceLast 30 (st.candles ++ [c]))
       let rl := dynamicRisk entry sig.signal atrNow
       let size := positionSize st.balance entry rl.stop
       let scan := exitScan lower sig.signal entry rl.stop rl.target size atrNow
         (i + 1) (min (i + 12) lower.length - (i + 1))
         { tradeProfitLoss := 0, duration := 0, tradeLow := entry, tradeHigh := entry
           exitPrice := entry }
       let balanceBack := st.balance - size * entry + size * entry + scan.tradeProfitLoss
       let riskPct :=
         match sig.signal with
         | .long => |entry - scan.tradeLow| / entry
         | .short => |scan.tradeHigh - entry| / entry
       let rewardPct :=
         match sig.signal with
         | .long => |scan.exitPrice - entry| / entry
         | .short => |entry - scan.exitPrice| / entry
       { prices := st.prices ++ [c.close], volumes := st.volumes ++ [c.volume]
         candles := st.candles ++ [c]
         trades := st.trades + 1
         wins := if scan.tradeProfitLoss ≥ 0 then st.wins + 1 else st.wins
         losses := if scan.tradeProfitLoss ≥ 0 then st.losses else st.losses + 1
         totalDuration := st.totalDuration + scan.duration
         totalRR := st.totalRR + rewardPct / max riskPct (1/10000)
         lastTradeIndex := (i : ℤ)
         balance := if balanceBack ≤ 0 then 0 else balanceBack
         investmentGone := if balanceBack ≤ 0 then true else st.investmentGone }) := by
  simp only [stepBar, hsig, hgone, Bool.false_eq_true, if_false]

/-- Any property preserved by every step is preserved by a fold of steps. -/
lemma foldl_stepBar_inv (P : SimState → Prop)
    (hstep : ∀ i st, P st → P (stepBar atrFn strategyFunc lower higher i st)) :
    ∀ (l : List ℕ) (st : SimState), P st →
      P (l.foldl (fun st i => stepBar atrFn strategyFunc lower higher i st) st) := by
  intro l
  induction l with
  | nil => intro st h; exact h
  | cons a l ih => intro st h; exact ih _ (hstep a st h)

/-- Any property preserved by every step holds after the whole bar loop. -/
lemma runLoop_inv (P : SimState → Prop)
    (hstep : ∀ i st, P st → P (stepBar atrFn strategyFunc lower higher i st))
    (i0 : ℕ) (st : SimState) (h : P st) :
    P (runLoop atrFn strategyFunc lower higher i0 st) :=
  foldl_stepBar_inv atrFn strategyFunc lower higher P hstep _ st h

/-- Pushing the bar into the rolling arrays happens on every step, trade or not. -/
lemma stepBar_pushes (i : ℕ) (st : SimState) :
    (stepBar atrFn strategyFunc lower higher i st).candles =
        st.candles ++ [lower.getD i default] ∧
      (stepBar atrFn strategyFunc lower higher i st).prices =
        st.prices ++ [(lower.getD i default).close] ∧
      (stepBar atrFn strategyFunc lower higher i st).volumes =
        st.volumes ++ [(lower.getD i default).volume] := by
  simp only [stepBar]
  cases hsig : strategyFunc (sliceLast 30 (st.prices ++ [(lower.getD i default).close]))
      (sliceLast 30 (st.candles ++ [lower.getD i default]))
      (sliceLast 30 (st.volumes ++ [(lower.getD i default).volume]))
      higher i st.lastTradeIndex COOLDOWN with
  | none => exact ⟨rfl, rfl, rfl⟩
  | some sig =>
    by_cases hg : st.investmentGone = true
    · simp [if_pos hg]
    · simp [if_neg hg]

/-- The bar loop from 25 is the already-processed prefix followed by the loop from `i`:
`stateBefore` really is the state in which bar `i` is processed. -/
lemma runLoop_eq_stateBefore (i : ℕ) (h25 : 25 ≤ i) (hle : i ≤ lower.length) :
    runLoop atrFn strategyFunc lower higher 25 initState =
      runLoop atrFn strategyFunc lower higher i
        (stateBefore atrFn strategyFunc lower higher i) := by
  unfold runLoop stateBefore
  rw [show lower.length - 25 = (lower.length - i) + (i - 25) by omega,
    ← List.range'_append_1 25 (i - 25) (lower.length - i)]
  rw [List.foldl_append]
  rw [show 25 + (i - 25) = i by omega]

/-- Extending the processed-bars prefix by one more bar. -/
lemma drop25_take_succ (m : ℕ) (hidx : 25 + m < lower.length) :
    (lower.drop 25).take (m + 1) =
      (lower.drop 25).take m ++ [lower.getD (25 + m) default] := by
  rw [List.take_succ]
  congr 1
  have h1 : (lower.drop 25)[m]? = lower[25 + m]? := by
    rw [List.getElem?_drop]
  rw [h1, List.getElem?_eq_getElem hidx]
  simp [List.getD_eq_getElem?_getD, List.getElem?_eq_getElem hidx]

/-- The rolling arrays just before bar `i` hold exactly the processed bars
`25, …, i − 1`, with `prices`/`volumes` their projections. -/
lemma stateBefore_windows :
    ∀ (m : ℕ), 25 + m ≤ lower.length →
      (stateBefore atrFn strategyFunc lower higher (25 + m)).candles =
          (lower.drop 25).take m ∧
        (stateBefore atrFn strategyFunc lower higher (25 + m)).prices =
          ((lower.drop 25).take m).map Candle.close ∧
        (stateBefore atrFn strategyFunc lower higher (25 + m)).volumes =
          ((lower.drop 25).take m).map Candle.volume := by
  intro m
  induction m with
  | zero => intro _; simp [stateBefore, initState]
  | succ m ih =>
    intro hlen
    have hm := ih (by omega)
    have hidx : 25 + m < lower.length := by omega
    have hstep : stateBefore atrFn strategyFunc lower higher (25 + (m + 1)) =
        stepBar atrFn strategyFunc lower higher (25 + m)
          (stateBefore atrFn strategyFunc lower higher (25 + m)) := by
      unfold stateBefore
      rw [show (25 + (m + 1)) - 25 = m + 1 by omega, show (25 + m) - 25 = m by omega,
        List.range'_concat, List.foldl_append]
      simp
    have htake := drop25_take_succ lower m hidx
    have hpush := stepBar_pushes atrFn strategyFunc lower higher (25 + m)
      (stateBefore atrFn strategyFunc lower higher (25 + m))
    rw [hstep]
    refine ⟨?_, ?_, ?_⟩
    · rw [hpush.1, hm.1, htake]
    · rw [hpush.2.1, hm.2.1, htake]; simp
    · rw [hpush.2.2, hm.2.2, htake]; simp

/-- Rounding to two decimals moves a value by at most `1/200`. -/
lemma abs_round2_sub_le (x : ℚ) : |round2 x - x| ≤ 1/200 := by
  have h := abs_sub_round (x * 100)
  have h2 : round2 x - x = (((round (x * 100) : ℤ) : ℚ) - x * 100) / 100 := by
    unfold round2; ring
  rw [h2, abs_div, abs_of_pos (by norm_num : (0:ℚ) < 100), abs_sub_comm]
  linarith

/-- `round2 0 = 0`. -/
lemma round2_zero : round2 0 = 0 := by
  unfold round2
  norm_num

/-- `round2 100 = 100`. -/
lemma round2_hundred : round2 100 = 100 := by
  unfold round2
  rw [show ((100:ℚ) * 100) = ((10000:ℤ) : ℚ) by norm_num, round_intCast]
  norm_num

/-- One step preserves the invariant `wins + losses = trades`. -/
lemma stepBar_wins_losses (i : ℕ) (st : SimState)
    (h : st.wins + st.losses = st.trades) :
    (stepBar atrFn strategyFunc lower higher i st).wins +
        (stepBar atrFn strategyFunc lower higher i st).losses =
      (stepBar atrFn strategyFunc lower higher i st).trades := by
  simp only [stepBar]
  cases hsig : strategyFunc (sliceLast 30 (st.prices ++ [(lower.getD i default).close]))
      (sliceLast 30 (st.candles ++ [lower.getD i default]))
      (sliceLast 30 (st.volumes ++ [(lower.getD i default).volume]))
      higher i st.lastTradeIndex COOLDOWN with
  | none => simpa using h
  | some sig =>
    by_cases hg : st.investmentGone = true
    · simp only [if_pos hg]; simpa using h
    · simp only [if_neg hg]
      split_ifs <;> omega

/-- A step taken while the investment is gone freezes the counters and keeps the flag. -/
lemma stepBar_gone_frozen (i : ℕ) (st : SimState) (hg : st.investmentGone = true) :
    (stepBar atrFn strategyFunc lower higher i st).trades = st.trades ∧
      (stepBar atrFn strategyFunc lower higher i st).wins = st.wins ∧
      (stepBar atrFn strategyFunc lower higher i st).losses = st.losses ∧
      (stepBar atrFn strategyFunc lower higher i st).investmentGone = true := by
  rw [stepBar_gone atrFn strategyFunc lower higher i st hg]
  exact ⟨rfl, rfl, rfl, hg⟩

/-- Bars on which the strategy stays silent (whatever windows it is shown) leave the
trade counters untouched. -/
lemma foldl_stepBar_silent (l : List ℕ)
    (hs : ∀ i ∈ l, ∀ p c v lti, strategyFunc p c v higher i lti COOLDOWN = none) :
    ∀ st : SimState,
      ((l.foldl (fun st i => stepBar atrFn strategyFunc lower higher i st) st).trades =
          st.trades ∧
        (l.foldl (fun st i => stepBar atrFn strategyFunc lower higher i st) st).wins =
          st.wins ∧
        (l.foldl (fun st i => stepBar atrFn strategyFunc lower higher i st) st).losses =
          st.losses) := by
  induction l with
  | nil => intro st; exact ⟨rfl, rfl, rfl⟩
  | cons a l ih =>
    intro st
    have ha := hs a (List.mem_cons_self a l)
    have hstep := stepBar_none atrFn strategyFunc lower higher a st (ha _ _ _ _)
    have hl : ∀ i ∈ l, ∀ p c v lti, strategyFunc p c v higher i lti COOLDOWN = none :=
      fun i hi => hs i (List.mem_cons_of_mem a hi)
    have := ih hl (stepBar atrFn strategyFunc lower higher a st)
    simpa [List.foldl_cons, hstep] using this

/-- Invariant of the one-trade long exit scan: the running profit/loss is
`size × (exitPrice − entry)` and the exit price never falls below the entry, as long as
every scanned close is at least the entry. -/
lemma exitScan_long_spec (entry stop target size atr : ℚ) :
    ∀ (count j : ℕ) (st : ScanState),
      (∀ m, j ≤ m → m < j + count → entry ≤ (lower.getD m default).close) →
      st.tradeProfitLoss = size * (st.exitPrice - entry) → entry ≤ st.exitPrice →
      ((exitScan lower .long entry stop target size atr j count st).tradeProfitLoss =
          size *
            ((exitScan lower .long entry stop target size atr j count st).exitPrice -
              entry) ∧
        entry ≤ (exitScan lower .long entry stop target size atr j count st).exitPrice) := by
  intro count
  induction count with
  | zero => intro j st _ h1 h2; exact ⟨h1, h2⟩
  | succ count ih =>
    intro j st hm h1 h2
    have hj : entry ≤ (lower.getD j default).close := hm j le_rfl (by omega)
    simp only [exitScan]
    split
    · exact ⟨rfl, hj⟩
    · exact ih (j + 1)
        { tradeProfitLoss := size * ((lower.getD j default).close - entry)
          duration := st.duration + 1
          tradeLow := min st.tradeLow (lower.getD j default).close
          tradeHigh := st.tradeHigh
          exitPrice := (lower.getD j default).close }
        (fun m hm1 hm2 => hm m (by omega) (by omega)) rfl hj

/-- A firing step with a nonnegative scan profit books the trade as a win. -/
lemma stepBar_trade_counters (i : ℕ) (st : SimState) (sig : Signal)
    (hsig : strategyFunc (sliceLast 30 (st.prices ++ [(lower.getD i default).close]))
      (sliceLast 30 (st.candles ++ [lower.getD i default]))
      (sliceLast 30 (st.volumes ++ [(lower.getD i default).volume]))
      higher i st.lastTradeIndex COOLDOWN = some sig)
    (hgone : st.investmentGone = false)
    (hPL : (exitScan lower sig.signal (lower.getD i default).close
        (dynamicRisk (lower.getD i default).close sig.signal
          (atrFn (sliceLast 30 (st.candles ++ [lower.getD i default])))).stop
        (dynamicRisk (lower.getD i default).close sig.signal
          (atrFn (sliceLast 30 (st.candles ++ [lower.getD i default])))).target
        (positionSize st.balance (lower.getD i default).close
          (dynamicRisk (lower.getD i default).close sig.signal
            (atrFn (sliceLast 30 (st.candles ++ [lower.getD i default])))).stop)
        (atrFn (sliceLast 30 (st.candles ++ [lower.getD i default])))
        (i + 1) (min (i + 12) lower.length - (i + 1))
        { tradeProfitLoss := 0, duration := 0
          tradeLow := (lower.getD i default).close
          tradeHigh := (lower.getD i default).close
          exitPrice := (lower.getD i default).close }).tradeProfitLoss ≥ 0) :
    (stepBar atrFn strategyFunc lower higher i st).trades = st.trades + 1 ∧
      (stepBar atrFn strategyFunc lower higher i st).wins = st.wins + 1 ∧
      (stepBar atrFn strategyFunc lower higher i st).losses = st.losses := by
  rw [stepBar_trade atrFn strategyFunc lower higher i st sig hsig hgone]
  refine ⟨rfl, ?_, ?_⟩ <;> simp only [] <;> rw [if_pos hPL]

end Lemmas

-- ---------------- The claims ----------------

/-- Claim C3 (confirmed): for every series and strategy, the simulator's aggregated
result satisfies `wins + losses = trades`; `winRate` equals `wins / trades × 100` up to
the 2-decimal rounding applied to the output (distance at most `1/200`); and a run with
zero trades reports `winRate = 0`, `avgDuration = 0` and `avgRR = 0`. -/
theorem C3_aggregateInvariants (atrFn : List Candle → ℚ) (strategyFunc : StrategyFn)
    (lower higher : List Candle) :
    (simulate atrFn strategyFunc lower higher).wins +
        (simulate atrFn strategyFunc lower higher).losses =
      (simulate atrFn strategyFunc lower higher).trades ∧
    |(simulate atrFn strategyFunc lower higher).winRate -
        ((simulate atrFn strategyFunc lower higher).wins : ℚ) /
          ((simulate atrFn strategyFunc lower higher).trades : ℚ) * 100| ≤ 1/200 ∧
    ((simulate atrFn strategyFunc lower higher).trades = 0 →
      (simulate atrFn strategyFunc lower higher).winRate = 0 ∧
      (simulate atrFn strategyFunc lower higher).avgDuration = 0 ∧
      (simulate atrFn strategyFunc lower higher).avgRR = 0) := by
  have hwl : (runLoop atrFn strategyFunc lower higher 25 initState).wins +
      (runLoop atrFn strategyFunc lower higher 25 initState).losses =
      (runLoop atrFn strategyFunc lower higher 25 initState).trades :=
    runLoop_inv atrFn strategyFunc lower higher
      (fun s => s.wins + s.losses = s.trades)
      (fun i st h => stepBar_wins_losses atrFn strategyFunc lower higher i st h)
      25 initState rfl
  simp only [simulate, aggregate]
  refine ⟨hwl, ?_, fun h0 => ?_⟩
  · by_cases h0 : (runLoop atrFn strategyFunc lower higher 25 initState).trades = 0
    · have hw : (runLoop atrFn strategyFunc lower higher 25 initState).wins = 0 := by omega
      rw [if_pos h0, hw, h0, round2_zero]
      norm_num
    · rw [if_neg h0]
      exact abs_round2_sub_le _
  · rw [if_pos h0, if_pos h0, if_pos h0, round2_zero]
    exact ⟨rfl, rfl, rfl⟩

/-- Witness for C3 at a concrete zero-trade run: the empty series produces zero trades,
and the theorem then forces the three zero fields. -/
theorem C3_witness :
    (simulate ATR neverSignal [] []).trades = 0 ∧
      (simulate ATR neverSignal [] []).winRate = 0 ∧
      (simulate ATR neverSignal [] []).avgDuration = 0 ∧
      (simulate ATR neverSignal [] []).avgRR = 0 := by
  have h := (C3_aggregateInvariants ATR neverSignal [] []).2.2
  have h0 : (simulate ATR neverSignal [] []).trades = 0 := by with_unfolding_all decide
  exact ⟨h0, (h h0).1, (h h0).2.1, (h h0).2.2⟩

/-- Claim C6 (confirmed): once the ruin flag is on — the simulator raises it exactly
when the balance is ≤ 0 at the close of a trade and never clears it — the rest of the
bar loop opens no position: trade, win and loss counters are frozen and the flag stays
on, however long the scan continues. -/
theorem C6_ruinFreezesTrading (atrFn : List Candle → ℚ) (strategyFunc : StrategyFn)
    (lower higher : List Candle) (i0 : ℕ) (st : SimState)
    (hg : st.investmentGone = true) :
    (runLoop atrFn strategyFunc lower higher i0 st).trades = st.trades ∧
      (runLoop atrFn strategyFunc lower higher i0 st).wins = st.wins ∧
      (runLoop atrFn strategyFunc lower higher i0 st).losses = st.losses ∧
      (runLoop atrFn strategyFunc lower higher i0 st).investmentGone = true :=
  runLoop_inv atrFn strategyFunc lower higher
    (fun s => s.trades = st.trades ∧ s.wins = st.wins ∧ s.losses = st.losses ∧
      s.investmentGone = true)
    (fun i s hs => by
      have h := stepBar_gone_frozen atrFn strategyFunc lower higher i s hs.2.2.2
      exact ⟨h.1.trans hs.1, h.2.1.trans hs.2.1, h.2.2.1.trans hs.2.2.1, h.2.2.2⟩)
    i0 st ⟨rfl, rfl, rfl, hg⟩

/-- Witness for C6: a ruined state entering the loop over a concrete series keeps its
trade count. -/
theorem C6_witness :
    ({ initState with investmentGone := true } : SimState).investmentGone = true ∧
      (runLoop ATR alwaysLong c1series [] 25
          { initState with investmentGone := true }).trades =
        ({ initState with investmentGone := true } : SimState).trades :=
  ⟨rfl, (C6_ruinFreezesTrading ATR alwaysLong c1series [] 25
    { initState with investmentGone := true } rfl).1⟩

/-- Claim C7 (confirmed): a series whose load throws (the reader's catch maps it to
`[]`) and a series with zero candles both make the simulator return exactly
`{trades:0, wins:0, losses:0, winRate:0, avgDuration:0, avgRR:0}`; the error is absorbed
at that granularity (the embedding is total, so nothing propagates to the batch). -/
theorem C7_loadFailureZeroResult (atrFn : List Candle → ℚ) (strategyFunc : StrategyFn)
    (e : String) (rawHigher : Except String (List Candle)) :
    runBacktestFromParquet atrFn (Except.error e) rawHigher strategyFunc =
        { trades := 0, wins := 0, losses := 0, winRate := 0, avgDuration := 0,
          avgRR := 0 } ∧
      runBacktestFromParquet atrFn (Except.ok []) rawHigher strategyFunc =
        { trades := 0, wins := 0, losses := 0, winRate := 0, avgDuration := 0,
          avgRR := 0 } := by
  have hzero : simulate atrFn strategyFunc [] (fetchHistoricalDataFromParquet rawHigher) =
      { trades := 0, wins := 0, losses := 0, winRate := 0, avgDuration := 0,
        avgRR := 0 } := by
    simp [simulate, runLoop, aggregate, initState, round2_zero]
  constructor <;> simpa [runBacktestFromParquet, fetchHistoricalDataFromParquet] using hzero

/-- Claim C9 (confirmed): the position size `min(max(balance × r, 30) / stopDistance,
balance / entry)` is monotonically non-decreasing in the risk fraction `r` (for a
nonnegative balance, all other parameters fixed); with `r = 0.15` it is exactly the
source's `positionSize`. -/
theorem C9_sizeMonotoneInRisk (r1 r2 balance entry stop : ℚ)
    (hr : r1 ≤ r2) (hb : 0 ≤ balance) :
    positionSizeR r1 balance entry stop ≤ positionSizeR r2 balance entry stop ∧
      positionSizeR (15/100) balance entry stop = positionSize balance entry stop := by
  refine ⟨?_, rfl⟩
  have hD : (0:ℚ) < max |entry - stop| (1/10000) :=
    lt_of_lt_of_le (by norm_num) (le_max_right _ _)
  exact min_le_min
    ((div_le_div_iff_of_pos_right hD).mpr
      (max_le_max (mul_le_mul_of_nonneg_left hr hb) le_rfl))
    le_rfl

/-- Witness for C9 at concrete numbers: risk fraction 10% versus 20% on a 100 balance. -/
theorem C9_witness :
    ((1:ℚ)/10 ≤ 2/10) ∧ ((0:ℚ) ≤ 100) ∧
      positionSizeR (1/10) 100 50 49 ≤ positionSizeR (2/10) 100 50 49 :=
  ⟨by norm_num, by norm_num,
    (C9_sizeMonotoneInRisk (1/10) (2/10) 100 50 49 (by norm_num) (by norm_num)).1⟩

/-- Claim C1, amended (the simulator does not enforce the cooldown itself — it passes
`lastTradeIndex` and `COOLDOWN` to the strategy and opens a position for every non-null
signal while the investment is not gone): whenever the strategy fires at bar `i` and the
ruin flag is off, the trade count increments and `lastTradeIndex` becomes `i`, with no
hypothesis whatsoever relating `i`, `st.lastTradeIndex` and `COOLDOWN`. -/
theorem C1_noCooldownInSimulator (atrFn : List Candle → ℚ) (strategyFunc : StrategyFn)
    (lower higher : List Candle) (i : ℕ) (st : SimState) (sig : Signal)
    (hsig : strategyFunc (sliceLast 30 (st.prices ++ [(lower.getD i default).close]))
      (sliceLast 30 (st.candles ++ [lower.getD i default]))
      (sliceLast 30 (st.volumes ++ [(lower.getD i default).volume]))
      higher i st.lastTradeIndex COOLDOWN = some sig)
    (hgone : st.investmentGone = false) :
    (stepBar atrFn strategyFunc lower higher i st).trades = st.trades + 1 ∧
      (stepBar atrFn strategyFunc lower higher i st).lastTradeIndex = (i : ℤ) := by
  rw [stepBar_trade atrFn strategyFunc lower higher i st sig hsig hgone]
  exact ⟨rfl, rfl⟩

/-- Witness for C1's amended theorem: in the `c1series` run the simulator opens a trade
at bar 26 although the previous trade was at bar 25, one bar earlier — far inside the
8-bar cooldown. -/
theorem C1_witness :
    (stateBefore ATR alwaysLong c1series [] 26).lastTradeIndex = 25 ∧
      (26 : ℤ) - 25 < (COOLDOWN : ℤ) ∧
      (stepBar ATR alwaysLong c1series [] 26
          (stateBefore ATR alwaysLong c1series [] 26)).trades =
        (stateBefore ATR alwaysLong c1series [] 26).trades + 1 := by
  refine ⟨by with_unfolding_all decide, by decide, ?_⟩
  exact (C1_noCooldownInSimulator ATR alwaysLong c1series [] 26
    (stateBefore ATR alwaysLong c1series [] 26) ⟨Dir.long⟩ rfl
    (by with_unfolding_all decide)).1

/-- Counterexample to claim C1 as stated: `alwaysLong` returns a non-null signal at
every bar; on the 27-candle rising series the simulator opens trades at bars 25 and 26,
one bar apart, although `COOLDOWN = 8` — with only 2 processable bars, a simulator that
enforced the cooldown could open at most one trade. -/
theorem C1_counterexample :
    c1series.length = 27 ∧ COOLDOWN = 8 ∧
      (simulate ATR alwaysLong c1series []).trades = 2 := by
  refine ⟨by with_unfolding_all decide, rfl, by with_unfolding_all decide⟩

/-- Claim C4 (confirmed): at every trade entry the position size is exactly
`min(max(balance × 0.15, 30) / max(|entry − stop|, 0.0001), balance / entry)` (the
spec's formula and the source's computation coincide), and the step's balance follows
debit-then-credit: `size × entry` is taken out before the exit scan and
`size × entry + profitLoss` is returned after it (clamped at ruin). -/
theorem C4_sizingAndDebit (atrFn : List Candle → ℚ) (strategyFunc : StrategyFn)
    (lower higher : List Candle) (i : ℕ) (st : SimState) (sig : Signal)
    (hsig : strategyFunc (sliceLast 30 (st.prices ++ [(lower.getD i default).close]))
      (sliceLast 30 (st.candles ++ [lower.getD i default]))
      (sliceLast 30 (st.volumes ++ [(lower.getD i default).volume]))
      higher i st.lastTradeIndex COOLDOWN = some sig)
    (hgone : st.investmentGone = false) :
    positionSize st.balance (lower.getD i default).close
        (dynamicRisk (lower.getD i default).close sig.signal
          (atrFn (sliceLast 30 (st.candles ++ [lower.getD i default])))).stop =
      positionSizeSpecFormula st.balance (lower.getD i default).close
        (dynamicRisk (lower.getD i default).close sig.signal
          (atrFn (sliceLast 30 (st.candles ++ [lower.getD i default])))).stop ∧
    (stepBar atrFn strategyFunc lower higher i st).balance =
      (let entry := (lower.getD i default).close
       let atrNow := atrFn (sliceLast 30 (st.candles ++ [lower.getD i default]))
       let rl := dynamicRisk entry sig.signal atrNow
       let size := positionSize st.balance entry rl.stop
       let debited := st.balance - size * entry
       let scan := exitScan lower sig.signal entry rl.stop rl.target size atrNow
         (i + 1) (min (i + 12) lower.length - (i + 1))
         { tradeProfitLoss := 0, duration := 0, tradeLow := entry, tradeHigh := entry
           exitPrice := entry }
       let balanceBack := debited + size * entry + scan.tradeProfitLoss
       if balanceBack ≤ 0 then 0 else balanceBack) := by
  refine ⟨rfl, ?_⟩
  rw [stepBar_trade atrFn strategyFunc lower higher i st sig hsig hgone]

/-- Witness for C4 at the first trade of the `c1series` run: sizing formula and
debit/credit balance equation, instantiated and the hypotheses discharged. -/
theorem C4_witness :
    positionSize initState.balance (c1series.getD 25 default).close
        (dynamicRisk (c1series.getD 25 default).close Dir.long
          (ATR (sliceLast 30 (initState.candles ++ [c1series.getD 25 default])))).stop =
      positionSizeSpecFormula initState.balance (c1series.getD 25 default).close
        (dynamicRisk (c1series.getD 25 default).close Dir.long
          (ATR (sliceLast 30 (initState.candles ++ [c1series.getD 25 default])))).stop :=
  (C4_sizingAndDebit ATR alwaysLong c1series [] 25 initState ⟨Dir.long⟩ rfl rfl).1

/-- Claim C2, amended (on a strictly rising positive series with the once-signalling
long strategy the run has exactly one trade, a win, `winRate = 100` — but the exit need
not be at the target level: the combined break condition can also fire on the
profit-lock threshold, or the 12-bar horizon can run out below the target, so
"exits at target" is dropped): for every series with strictly increasing positive
closes and at least 26 bars, and every ATR function, the simulation of
`longOnFirstEligibleBar` yields `trades = 1`, `wins = 1`, `losses = 0`,
`winRate = 100`. -/
theorem C2_risingSeriesOneWinningTrade (atrFn : List Candle → ℚ)
    (lower higher : List Candle)
    (hlen : 26 ≤ lower.length)
    (hpos : ∀ j, j < lower.length → 0 < (lower.getD j default).close)
    (hmono : ∀ k, k < lower.length → ∀ j, j < k →
      (lower.getD j default).close < (lower.getD k default).close) :
    (simulate atrFn longOnFirstEligibleBar lower higher).trades = 1 ∧
      (simulate atrFn longOnFirstEligibleBar lower higher).wins = 1 ∧
      (simulate atrFn longOnFirstEligibleBar lower higher).losses = 0 ∧
      (simulate atrFn longOnFirstEligibleBar lower higher).winRate = 100 := by
  have hsplit := runLoop_eq_stateBefore atrFn longOnFirstEligibleBar lower higher 26
    (by norm_num) (by omega)
  have hSB : stateBefore atrFn longOnFirstEligibleBar lower higher 26 =
      stepBar atrFn longOnFirstEligibleBar lower higher 25 initState := by
    unfold stateBefore
    norm_num [List.range'_one]
  have hsig : longOnFirstEligibleBar
      (sliceLast 30 (initState.prices ++ [(lower.getD 25 default).close]))
      (sliceLast 30 (initState.candles ++ [lower.getD 25 default]))
      (sliceLast 30 (initState.volumes ++ [(lower.getD 25 default).volume]))
      higher 25 initState.lastTradeIndex COOLDOWN = some ⟨Dir.long⟩ := rfl
  have hentry : 0 < (lower.getD 25 default).close := hpos 25 (by omega)
  have hsize : 0 ≤ positionSize initState.balance (lower.getD 25 default).close
      (dynamicRisk (lower.getD 25 default).close Dir.long
        (atrFn (sliceLast 30 (initState.candles ++ [lower.getD 25 default])))).stop := by
    simp only [positionSize]
    refine le_min (div_nonneg ?_ ?_) (div_nonneg ?_ hentry.le)
    · exact le_trans (by norm_num) (le_max_right _ 30)
    · exact le_trans (by norm_num) (le_max_right _ (1/10000))
    · show (0:ℚ) ≤ initState.balance
      norm_num [initState]
  have hclose : ∀ m, 26 ≤ m → m < 26 + (min (25 + 12) lower.length - 26) →
      (lower.getD 25 default).close ≤ (lower.getD m default).close := by
    intro m h1 h2
    have hmin : min (25 + 12) lower.length ≤ lower.length := min_le_right _ _
    exact (hmono m (by omega) 25 (by omega)).le
  have hscan := exitScan_long_spec lower (lower.getD 25 default).close
    (dynamicRisk (lower.getD 25 default).close Dir.long
      (atrFn (sliceLast 30 (initState.candles ++ [lower.getD 25 default])))).stop
    (dynamicRisk (lower.getD 25 default).close Dir.long
      (atrFn (sliceLast 30 (initState.candles ++ [lower.getD 25 default])))).target
    (positionSize initState.balance (lower.getD 25 default).close
      (dynamicRisk (lower.getD 25 default).close Dir.long
        (atrFn (sliceLast 30 (initState.candles ++ [lower.getD 25 default])))).stop)
    (atrFn (sliceLast 30 (initState.candles ++ [lower.getD 25 default])))
    (min (25 + 12) lower.length - 26) 26
    { tradeProfitLoss := 0, duration := 0, tradeLow := (lower.getD 25 default).close
      tradeHigh := (lower.getD 25 default).close
      exitPrice := (lower.getD 25 default).close }
    hclose (by ring) le_rfl
  have hPL : (exitScan lower Dir.long (lower.getD 25 default).close
      (dynamicRisk (lower.getD 25 default).close Dir.long
        (atrFn (sliceLast 30 (initState.candles ++ [lower.getD 25 default])))).stop
      (dynamicRisk (lower.getD 25 default).close Dir.long
        (atrFn (sliceLast 30 (initState.candles ++ [lower.getD 25 default])))).target
      (positionSize initState.balance (lower.getD 25 default).close
        (dynamicRisk (lower.getD 25 default).close Dir.long
          (atrFn (sliceLast 30 (initState.candles ++ [lower.getD 25 default])))).stop)
      (atrFn (sliceLast 30 (initState.candles ++ [lower.getD 25 default])))
      (25 + 1) (min (25 + 12) lower.length - (25 + 1))
      { tradeProfitLoss := 0, duration := 0, tradeLow := (lower.getD 25 default).close
        tradeHigh := (lower.getD 25 default).close
        exitPrice := (lower.getD 25 default).close }).tradeProfitLoss ≥ 0 := by
    rw [hscan.1]
    exact mul_nonneg hsize (by linarith [hscan.2])
  have hcnt := stepBar_trade_counters atrFn longOnFirstEligibleBar lower higher 25
    initState ⟨Dir.long⟩ hsig rfl hPL
  have hsilent := foldl_stepBar_silent atrFn longOnFirstEligibleBar lower higher
    (List.range' 26 (lower.length - 26))
    (fun i hi p c v lti => by
      have h26 : 26 ≤ i := (List.mem_range'_1.mp hi).1
      unfold longOnFirstEligibleBar
      rw [if_neg (by omega)])
    (stepBar atrFn longOnFirstEligibleBar lower higher 25 initState)
  have hfinal : (runLoop atrFn longOnFirstEligibleBar lower higher 25 initState).trades
        = 1 ∧
      (runLoop atrFn longOnFirstEligibleBar lower higher 25 initState).wins = 1 ∧
      (runLoop atrFn longOnFirstEligibleBar lower higher 25 initState).losses = 0 := by
    rw [hsplit]
    unfold runLoop
    rw [hSB]
    refine ⟨?_, ?_, ?_⟩
    · rw [hsilent.1, hcnt.1]; rfl
    · rw [hsilent.2.1, hcnt.2.1]; rfl
    · rw [hsilent.2.2, hcnt.2.2]; rfl
  simp only [simulate, aggregate]
  refine ⟨hfinal.1, hfinal.2.1, hfinal.2.2, ?_⟩
  rw [hfinal.1, hfinal.2.1, if_neg (by norm_num)]
  rw [show (((1:ℕ):ℚ) / ((1:ℕ):ℚ)) * 100 = 100 by norm_num, round2_hundred]

/-- Witness for C2's amended theorem at the concrete rising series `c2series`. -/
theorem C2_witness :
    26 ≤ c2series.length ∧
      (simulate ATR longOnFirstEligibleBar c2series []).trades = 1 ∧
      (simulate ATR longOnFirstEligibleBar c2series []).wins = 1 ∧
      (simulate ATR longOnFirstEligibleBar c2series []).losses = 0 ∧
      (simulate ATR longOnFirstEligibleBar c2series []).winRate = 100 := by
  have h := C2_risingSeriesOneWinningTrade ATR c2series []
    (by with_unfolding_all decide)
    (by with_unfolding_all decide)
    (by with_unfolding_all decide)
  exact ⟨by with_unfolding_all decide, h.1, h.2.1, h.2.2.1, h.2.2.2⟩

set_option maxRecDepth 2000 in
/-- Counterexample to claim C2 as stated: `c2series` has strictly rising positive
closes and `longOnFirstEligibleBar` signals long exactly once, on the first eligible
bar, yet the single trade does **not** exit by reaching the target: `c2scan` — shown
here to be exactly the exit scan the simulator runs at bar 25 (same arguments as
`stepBar` computes from the initial state) — runs through the whole horizon
(`duration = 2` scan bars on this 28-bar series), ends strictly below the target,
strictly above the stop, and strictly below the profit-lock threshold, so no exit
condition ever fired; the trade is still the single win the spec expects. -/
theorem C2_counterexample :
    (26 ≤ c2series.length ∧
      (∀ j, j < c2series.length → 0 < (c2series.getD j default).close) ∧
      (∀ k, k < c2series.length → ∀ j, j < k →
        (c2series.getD j default).close < (c2series.getD k default).close)) ∧
    c2scan = exitScan c2series Dir.long (c2series.getD 25 default).close
      (dynamicRisk (c2series.getD 25 default).close Dir.long
        (ATR (sliceLast 30 (initState.candles ++ [c2series.getD 25 default])))).stop
      (dynamicRisk (c2series.getD 25 default).close Dir.long
        (ATR (sliceLast 30 (initState.candles ++ [c2series.getD 25 default])))).target
      (positionSize initState.balance (c2series.getD 25 default).close
        (dynamicRisk (c2series.getD 25 default).close Dir.long
          (ATR (sliceLast 30 (initState.candles ++ [c2series.getD 25 default])))).stop)
      (ATR (sliceLast 30 (initState.candles ++ [c2series.getD 25 default])))
      (25 + 1) (min (25 + 12) c2series.length - (25 + 1))
      { tradeProfitLoss := 0, duration := 0
        tradeLow := (c2series.getD 25 default).close
        tradeHigh := (c2series.getD 25 default).close
        exitPrice := (c2series.getD 25 default).close } ∧
    c2scan.exitPrice < c2rl.target ∧
    c2rl.stop < c2scan.exitPrice ∧
    c2scan.tradeProfitLoss <
      c2size * ATR (sliceLast 30 ((c2series.drop 25).take 1)) * (35/100) ∧
    c2scan.duration = 2 ∧
    (simulate ATR longOnFirstEligibleBar c2series []).trades = 1 := by
  refine ⟨⟨?_, ?_, ?_⟩, ?_, ?_, ?_, ?_, ?_, ?_⟩ <;> with_unfolding_all decide

/-- The best-so-far fold of `processStockConcurrent`, abstractly: the accumulator's
score never drops, every visited element's score is dominated, and the result is either
the untouched seed or the first element attaining the final (strictly improved) score. -/
lemma bestFold_spec {α : Type} (toB : α → TFBest) :
    ∀ (l : List α) (acc : TFBest),
      acc.winRate ≤
          (l.foldl (fun best p => if (toB p).winRate > best.winRate then toB p else best)
            acc).winRate ∧
        (∀ p ∈ l, (toB p).winRate ≤
          (l.foldl (fun best p => if (toB p).winRate > best.winRate then toB p else best)
            acc).winRate) ∧
        ((l.foldl (fun best p => if (toB p).winRate > best.winRate then toB p else best)
            acc) = acc ∨
          ∃ pre p suf, l = pre ++ p :: suf ∧
            (l.foldl (fun best p => if (toB p).winRate > best.winRate then toB p else best)
              acc) = toB p ∧
            acc.winRate <
              (l.foldl (fun best p => if (toB p).winRate > best.winRate then toB p else best)
                acc).winRate ∧
            ∀ q ∈ pre, (toB q).winRate <
              (l.foldl (fun best p => if (toB p).winRate > best.winRate then toB p else best)
                acc).winRate) := by
  intro l
  induction l with
  | nil => intro acc; exact ⟨le_rfl, by simp, Or.inl rfl⟩
  | cons a l ih =>
    intro acc
    simp only [List.foldl_cons]
    by_cases h : (toB a).winRate > acc.winRate
    · rw [if_pos h]
      obtain ⟨h1, h2, h3⟩ := ih (toB a)
      refine ⟨le_trans h.le h1, ?_, ?_⟩
      · intro p hp
        rcases List.mem_cons.mp hp with rfl | hp
        · exact h1
        · exact h2 p hp
      · rcases h3 with he | ⟨pre, p, suf, hl, hb, hlt, hpre⟩
        · right
          exact ⟨[], a, l, rfl, he, by rw [he]; exact h, by simp⟩
        · right
          refine ⟨a :: pre, p, suf, by simp [hl], hb, lt_trans h hlt, ?_⟩
          intro q hq
          rcases List.mem_cons.mp hq with rfl | hq
          · exact hlt
          · exact hpre q hq
    · rw [if_neg h]
      obtain ⟨h1, h2, h3⟩ := ih acc
      push_neg at h
      refine ⟨h1, ?_, ?_⟩
      · intro p hp
        rcases List.mem_cons.mp hp with rfl | hp
        · exact le_trans h h1
        · exact h2 p hp
      · rcases h3 with he | ⟨pre, p, suf, hl, hb, hlt, hpre⟩
        · exact Or.inl he
        · right
          refine ⟨a :: pre, p, suf, by simp [hl], hb, hlt, ?_⟩
          intro q hq
          rcases List.mem_cons.mp hq with rfl | hq
          · exact lt_of_le_of_lt h hlt
          · exact hpre q hq

/-- Claim C5, amended (the seed `{strategy:'', winRate:0}` only loses to a strictly
greater `winRate`, so a registry whose strategies all score 0 keeps the seed rather than
the first-seen strategy): the selected entry dominates every strategy's `winRate`; when
its `winRate` is positive it is the first strategy attaining that `winRate` (every
earlier strategy scores strictly less — first-seen tie-keeping); and when no strategy
beats 0 the seed is kept unchanged. -/
theorem C5_bestSelection (atrFn : List Candle → ℚ)
    (strategies : List (String × StrategyFn)) (lower higher : List Candle) :
    (∀ p ∈ strategies, (simulate atrFn p.2 lower higher).winRate ≤
        (bestForTF atrFn strategies lower higher).winRate) ∧
      (0 < (bestForTF atrFn strategies lower higher).winRate →
        ∃ pre p suf, strategies = pre ++ p :: suf ∧
          (bestForTF atrFn strategies lower higher).strategy = p.1 ∧
          (bestForTF atrFn strategies lower higher).winRate =
            (simulate atrFn p.2 lower higher).winRate ∧
          ∀ q ∈ pre, (simulate atrFn q.2 lower higher).winRate <
            (bestForTF atrFn strategies lower higher).winRate) ∧
      ((bestForTF atrFn strategies lower higher).winRate ≤ 0 →
        bestForTF atrFn strategies lower higher = seedTFBest) := by
  obtain ⟨h1, h2, h3⟩ :=
    bestFold_spec (fun p => mkTFBest p.1 (simulate atrFn p.2 lower higher))
      strategies seedTFBest
  refine ⟨fun p hp => h2 p hp, fun hpos => ?_, fun hle => ?_⟩
  · rcases h3 with he | ⟨pre, p, suf, hl, hb, hlt, hpre⟩
    · have he' : bestForTF atrFn strategies lower higher = seedTFBest := he
      rw [he'] at hpos
      exact absurd hpos (by norm_num [seedTFBest])
    · have hb' : bestForTF atrFn strategies lower higher =
          mkTFBest p.1 (simulate atrFn p.2 lower higher) := hb
      refine ⟨pre, p, suf, hl, ?_, ?_, fun q hq => hpre q hq⟩
      · rw [hb']; rfl
      · rw [hb']; rfl
  · rcases h3 with he | ⟨pre, p, suf, hl, hb, hlt, hpre⟩
    · exact he
    · have hlt' : (0:ℚ) < (bestForTF atrFn strategies lower higher).winRate := hlt
      exact absurd (lt_of_lt_of_le hlt' hle) (lt_irrefl 0)

set_option maxRecDepth 2000 in
/-- Counterexample to claim C5 as stated: a one-strategy registry whose strategy never
signals scores `winRate = 0`; the claim picks that (trivially highest-scoring, sole)
strategy as the winner, but the fold keeps the seed: the selected `strategy` is `''`,
not `"alpha"`. -/
theorem C5_counterexample :
    (simulate ATR neverSignal [] []).winRate = 0 ∧
      (bestForTF ATR [("alpha", neverSignal)] [] []).strategy = "" ∧
      "" ≠ "alpha" := by
  refine ⟨?_, ?_, ?_⟩ <;> with_unfolding_all decide

/-- Membership in the derived skip-set is exactly "some persisted entry has this symbol
and `retested = "yes"`". -/
lemma mem_alreadyRetestedSymbols (rs : List StoredResult) (x : String) :
    x ∈ alreadyRetestedSymbols rs ↔ ∃ e ∈ rs, e.symbol = x ∧ e.retested = "yes" := by
  simp only [alreadyRetestedSymbols, List.mem_map, List.mem_filter, decide_eq_true_eq]
  constructor
  · rintro ⟨e, ⟨he, hr⟩, hx⟩
    exact ⟨e, he, hx, hr⟩
  · rintro ⟨e, he, hx, hr⟩
    exact ⟨e, ⟨he, hr⟩, hx⟩

/-- Claim C8 (confirmed): the store's upsert always writes its entry with
`retested = "yes"` (every other element of the store is carried over unchanged); the
skip-set is exactly the symbols of the persisted entries whose `retested` flag is
`"yes"`; after an upsert the upserted symbol is in the skip-set; and the scheduler's
filter excludes every stock whose symbol is in the skip-set — in particular the
upserted one. -/
theorem C8_retestedSkipSet (allResults : List StoredResult) (symbol : String)
    (result : SymbolOutput) (stocks : List Stock) :
    (∀ x, x ∈ alreadyRetestedSymbols allResults ↔
       ∃ e ∈ allResults, e.symbol = x ∧ e.retested = "yes") ∧
    (∀ e ∈ (saveResult allResults symbol result).1,
       e ∈ allResults ∨ (e.symbol = symbol ∧ e.retested = "yes")) ∧
    (∃ e ∈ (saveResult allResults symbol result).1,
       e.symbol = symbol ∧ e.retested = "yes") ∧
    symbol ∈ alreadyRetestedSymbols (saveResult allResults symbol result).1 ∧
    ∀ s ∈ filterTradable stocks
        (alreadyRetestedSymbols (saveResult allResults symbol result).1),
      s.symbol ≠ symbol := by
  have hmemnew : ∃ e ∈ (saveResult allResults symbol result).1,
      e.symbol = symbol ∧ e.retested = "yes" := by
    unfold saveResult
    cases hidx : allResults.findIdx? (fun r => r.symbol = symbol) with
    | none =>
      exact ⟨_, List.mem_append_right _ (List.mem_singleton.mpr rfl), rfl, rfl⟩
    | some idx =>
      have hlt : idx < allResults.length :=
        (List.findIdx?_eq_some_iff_getElem.mp hidx).1
      exact ⟨_, List.mem_set allResults idx hlt _, rfl, rfl⟩
  have hold : ∀ e ∈ (saveResult allResults symbol result).1,
      e ∈ allResults ∨ (e.symbol = symbol ∧ e.retested = "yes") := by
    unfold saveResult
    cases hidx : allResults.findIdx? (fun r => r.symbol = symbol) with
    | none =>
      intro e he
      rcases List.mem_append.mp he with he | he
      · exact Or.inl he
      · rcases List.mem_singleton.mp he with rfl
        exact Or.inr ⟨rfl, rfl⟩
    | some idx =>
      intro e he
      rcases List.mem_or_eq_of_mem_set he with he | rfl
      · exact Or.inl he
      · exact Or.inr ⟨rfl, rfl⟩
  have hskip : symbol ∈ alreadyRetestedSymbols (saveResult allResults symbol result).1 :=
    (mem_alreadyRetestedSymbols _ _).mpr hmemnew
  refine ⟨mem_alreadyRetestedSymbols allResults, hold, hmemnew, hskip, ?_⟩
  intro s hs heq
  have hs' := List.mem_filter.mp hs
  rw [heq] at hs'
  simp at hs'
  exact hs'.2 hskip

/-- Witness for C8 at a concrete store/universe: upserting `AAPL` into the empty store
puts it in the skip-set and the filter then drops the `AAPL` stock. -/
theorem C8_witness :
    "AAPL" ∈ alreadyRetestedSymbols (saveResult [] "AAPL" appleOutput).1 ∧
      ∀ s ∈ filterTradable [appleStock]
          (alreadyRetestedSymbols (saveResult [] "AAPL" appleOutput).1),
        s.symbol ≠ "AAPL" :=
  ⟨(C8_retestedSkipSet [] "AAPL" appleOutput [appleStock]).2.2.2.1,
    (C8_retestedSkipSet [] "AAPL" appleOutput [appleStock]).2.2.2.2⟩

/-- Claim C10 (confirmed): at every processed bar `i ≥ 25` the three rolling windows
handed to the strategy (and, for the candle window, to ATR) hold exactly
`min(i − 24, 30)` bars; the candle window content is exactly bars `25 … i` of the
series — the 25 warm-up bars are never appended — and `stateBefore` really is the
loop's state at bar `i` (last conjunct). At `i = 25` the length is `min(1, 30) = 1`. -/
theorem C10_warmupWindows (atrFn : List Candle → ℚ) (strategyFunc : StrategyFn)
    (lower higher : List Candle) (i : ℕ) (h25 : 25 ≤ i) (hlt : i < lower.length) :
    (sliceLast 30 ((stateBefore atrFn strategyFunc lower higher i).prices ++
        [(lower.getD i default).close])).length = min (i - 24) 30 ∧
      (sliceLast 30 ((stateBefore atrFn strategyFunc lower higher i).candles ++
        [lower.getD i default])).length = min (i - 24) 30 ∧
      (sliceLast 30 ((stateBefore atrFn strategyFunc lower higher i).volumes ++
        [(lower.getD i default).volume])).length = min (i - 24) 30 ∧
      (stateBefore atrFn strategyFunc lower higher i).candles ++
          [lower.getD i default] =
        (lower.drop 25).take (i - 24) ∧
      runLoop atrFn strategyFunc lower higher 25 initState =
        runLoop atrFn strategyFunc lower higher i
          (stateBefore atrFn strategyFunc lower higher i) := by
  obtain ⟨m, rfl⟩ : ∃ m, i = 25 + m := ⟨i - 25, by omega⟩
  obtain ⟨hc, hp, hv⟩ := stateBefore_windows atrFn strategyFunc lower higher m (by omega)
  have hlen : ((lower.drop 25).take m).length = m := by
    rw [List.length_take, List.length_drop]
    omega
  have hm1 : 25 + m - 24 = m + 1 := by omega
  refine ⟨?_, ?_, ?_, ?_, ?_⟩
  · rw [sliceLast_length, List.length_append, hp, List.length_map, hlen, hm1]
    rfl
  · rw [sliceLast_length, List.length_append, hc, hlen, hm1]
    rfl
  · rw [sliceLast_length, List.length_append, hv, List.length_map, hlen, hm1]
    rfl
  · rw [hc, hm1, drop25_take_succ lower m (by omega)]
  · exact runLoop_eq_stateBefore atrFn strategyFunc lower higher (25 + m)
      (by omega) (by omega)

/-- Witness for C10 at the first processed bar of a concrete series: the very first
strategy invocation sees a price window of length `min(25 − 24, 30) = 1`. -/
theorem C10_witness :
    25 < c1series.length ∧
      (sliceLast 30 ((stateBefore ATR alwaysLong c1series [] 25).prices ++
        [(c1series.getD 25 default).close])).length = min (25 - 24) 30 ∧
      min (25 - 24) 30 = 1 :=
  ⟨by with_unfolding_all decide,
    (C10_warmupWindows ATR alwaysLong c1series [] 25 le_rfl
      (by with_unfolding_all decide)).1,
    by decide⟩

set_option maxRecDepth 4000 in
/-- Witness for C5's amended theorem on a registry whose strategy does score above 0. -/
theorem C5_witness :
    0 < (bestForTF ATR [("always", alwaysLong)] c1series []).winRate ∧
      ∃ pre p suf,
        ([("always", alwaysLong)] : List (String × StrategyFn)) = pre ++ p :: suf ∧
        (bestForTF ATR [("always", alwaysLong)] c1series []).strategy = p.1 ∧
        (bestForTF ATR [("always", alwaysLong)] c1series []).winRate =
          (simulate ATR p.2 c1series []).winRate ∧
        ∀ q ∈ pre, (simulate ATR q.2 c1series []).winRate <
          (bestForTF ATR [("always", alwaysLong)] c1series []).winRate :=
  ⟨by with_unfolding_all decide,
    (C5_bestSelection ATR [("always", alwaysLong)] c1series []).2.1
      (by with_unfolding_all decide)⟩

end ChartMonitor
